import Mathlib

/-!
Shallow embedding of the `cidr-trie` Python library (canonical version:
`cidr_trie/__init__.py`, with `cidr_trie/bits_util.py` and
`cidr_trie/cidr_util.py`).

Modelling conventions:
* Python `int` addresses become `Nat`.  All addresses handled by the library
  are below `2 ^ 32` (v4) or `2 ^ 128` (v6).
* `PatriciaNode` objects linked by `left` / `right` references (with `None`
  for a missing child) become the inductive tree `PTree`; the constructor
  `PTree.nil` is Python's `None`.  The `parent` back-pointer is not stored:
  the upward walk of `insert` is performed on the recorded root-to-leaf
  path instead, which visits exactly the same node sequence.
* Python dictionaries `Dict[int, Any]` (the per-node `value` mapping from
  netmask to data) become insertion-ordered association lists: assignment
  updates an existing key in place and appends a fresh key, exactly like a
  Python `dict`.
* Exceptions become `Except String` results; the message is the one raised
  by the source.  A method that mutates `self` before raising returns the
  mutated state together with the error, mirroring what a caller observes
  on the Python object after catching the exception.
* CIDR-string parsing (`cidr_atoi` / `is_v6`) is an external collaborator
  per the specification; trie operations take the parsed
  `(ip, mask)` pair and the detected family flag `v6` directly.  A parse
  failure is represented by `none` in `insertParsed`.
-/

namespace CidrTrie

/-- Python `None` / `PatriciaNode` tree.  A node stores `ip`, `bit`
(branch bit), and `value` (the netmask → data dict); `left`/`right`
subtrees replace the child pointers. -/
inductive PTree (V : Type) : Type where
  | nil : PTree V
  | node (ip : Nat) (bit : Nat) (value : List (Nat × V))
      (left : PTree V) (right : PTree V) : PTree V
deriving Repr

variable {V : Type}

/-- `node.ip` (0 for `None`, which the source never dereferences). -/
def PTree.ipOf : PTree V → Nat
  | .nil => 0
  | .node ip _ _ _ _ => ip

/-- `node.bit`. -/
def PTree.bitOf : PTree V → Nat
  | .nil => 0
  | .node _ bit _ _ _ => bit

/-- `node.value`. -/
def PTree.valueOf : PTree V → List (Nat × V)
  | .nil => []
  | .node _ _ value _ _ => value

/-- `node.left`. -/
def PTree.leftOf : PTree V → PTree V
  | .nil => .nil
  | .node _ _ _ l _ => l

/-- `node.right`. -/
def PTree.rightOf : PTree V → PTree V
  | .nil => .nil
  | .node _ _ _ _ r => r

/-- Python dict assignment `d[k] = v`: replaces the value of an existing
key in place, appends a new key at the end (Python dicts preserve
insertion order). -/
def dictSet : List (Nat × V) → Nat → V → List (Nat × V)
  | [], k, v => [(k, v)]
  | (k', v') :: rest, k, v =>
      if k' == k then (k', v) :: rest else (k', v') :: dictSet rest k v

/-- Python dict lookup `d.get(k)`. -/
def dictGet : List (Nat × V) → Nat → Option V
  | [], _ => none
  | (k', v') :: rest, k => if k' == k then some v' else dictGet rest k

/-! ## bits_util.py -/

/-- `bit_not(n, numbits)`: `(1 << numbits) - 1 - n`. -/
def bit_not (n : Nat) (numbits : Nat) : Nat :=
  (1 <<< numbits) - 1 - n

/-- `is_set(b, val, v6)`: whether bit `b`, counted from the most
significant bit of the 32- or 128-bit address, is set in `val`.

The Python guard `if b < 0: b = 0` is unreachable here: every branch bit
ever stored by this library is a natural number (the root uses 0, not a
negative sentinel), so `b` is modelled as `Nat`.  (For `b > width - 1` the
Python code would raise on a negative shift count; no reachable state in
the theorems below produces such a call.) -/
def is_set (b : Nat) (val : Nat) (v6 : Bool) : Bool :=
  if v6 then val &&& (1 <<< (127 - b)) != 0
  else val &&& (1 <<< (31 - b)) != 0

/-- Fuel-driven translation of the Python loop
`pos = 0; while (n & 1) == 0: n >>= 1; pos += 1` at the end of `fls`.
The loop only ever runs on a power of two produced by the bit smearing,
so fuel 200 makes the model agree with Python on every input the library
reaches (Python diverges on `n = 0`, which smearing never produces). -/
def ctzLoop : Nat → Nat → Nat
  | 0, _ => 0
  | fuel + 1, n => if n &&& 1 == 0 then ctzLoop fuel (n >>> 1) + 1 else 0

/-- `fls(val, v6)` ("find last set"): index, from the LSB, of the most
significant set bit of `val`; `0` when `val == 0`.  Translates the
bit-smearing implementation: smear shifts are `1` and `2^i` for
`i = 1 .. max_power_of_2` with `max_power_of_2 = 7` for v6 and `5` for
v4. -/
def fls (val : Nat) (v6 : Bool) : Nat :=
  if val == 0 then 0
  else
    let maxPow : Nat := if v6 then 7 else 5
    let n := val ||| (val >>> 1)
    let n := (List.range maxPow).foldl (fun acc i => acc ||| (acc >>> 2 ^ (i + 1))) n
    let n := n + 1
    let n := n >>> 1
    ctzLoop 200 n

/-- Fuel-driven translation of Python `int.bit_length()` for the
nonnegative integers this library manipulates (all below `2 ^ 128`, so
fuel 200 is exact). -/
def bitLength : Nat → Nat → Nat
  | 0, _ => 0
  | fuel + 1, n => if n == 0 then 0 else bitLength fuel (n >>> 1) + 1

/-- Python `x & -x` for `0 ≤ x < 2 ^ 128`: with arbitrary-precision
two's complement, `-x` agrees with `2 ^ 128 - x` on every bit position
below 128, and `x` has no set bits at or above 128, so the conjunction is
exactly `x &&& (2 ^ 128 - x)` (and `0 & -0 = 0` also agrees). -/
def pyLowBit (x : Nat) : Nat :=
  x &&& (2 ^ 128 - x)

/-- `ffs(x)`: `(x & -x).bit_length() - 1`, the index from the LSB of the
least significant set bit; `-1` when `x == 0` (hence the `Int` result,
exactly as in Python). -/
def ffs (x : Nat) : Int :=
  (bitLength 200 (pyLowBit x) : Int) - 1

/-! ## cidr_util.py -/

/-- `get_subnet_mask(subnet, v6)`. -/
def get_subnet_mask (subnet : Nat) (v6 : Bool) : Nat :=
  if v6 then bit_not ((1 <<< (128 - subnet)) - 1) 128
  else bit_not ((1 <<< (32 - subnet)) - 1) 32

/-- `longest_common_prefix_length(a, b, v6)`:
`(128 if v6 else 32) - fls(a ^ b, v6) - 1`.  (For addresses below the
family width `fls` is at most `width - 1`, so the `Nat` subtraction never
clamps where Python would go negative.) -/
def longest_common_prefix_length (a b : Nat) (v6 : Bool) : Nat :=
  (if v6 then 128 else 32) - fls (a ^^^ b) v6 - 1

/-! ## PatriciaTrie -/

/-- The trie object: `root`, family flag `v6`, and `size` (node count,
root excluded).  `PatriciaTrie.__init__` builds
`root = PatriciaNode(0, 0)` with an empty mask dict, `v6 = False`,
`size = 0`. -/
structure Trie (V : Type) : Type where
  root : PTree V
  v6 : Bool
  size : Nat
deriving Repr

/-- `PatriciaTrie()` — the freshly constructed trie. -/
def Trie.empty : Trie V :=
  ⟨.node 0 0 [] .nil .nil, false, 0⟩

/-- The downward walk shared by `insert`, `traverse` and the queries:
starting at a node, repeatedly step to `right` if
`is_set(cur.bit, ip, v6)` else to `left`, recording every visited node
(as the subtree rooted there), until the next reference is `None`. -/
def walkDown : PTree V → Nat → Bool → List (PTree V)
  | .nil, _, _ => []
  | .node ip bit value l r, query, v6 =>
      .node ip bit value l r ::
        (match is_set bit query v6 with
          | true => walkDown r query v6
          | false => walkDown l query v6)

/-- Replace the child of a node on side `dir` (`true` = right). -/
def setChild : PTree V → Bool → PTree V → PTree V
  | .nil, _, _ => .nil
  | .node ip bit value l r, dir, c =>
      if dir then .node ip bit value l c else .node ip bit value c r

/-- Rebuild the tree along the recorded walk: each ancestor `n` gets its
followed child — the one on side `is_set(n.bit, ip, v6)` — replaced.
This is the functional image of Python's in-place child mutation. -/
def rebuild (ancestors : List (PTree V)) (sub : PTree V) (ip : Nat) (v6 : Bool) :
    PTree V :=
  ancestors.foldr (fun n acc => setChild n (is_set n.bitOf ip v6) acc) sub

/-- Core of `PatriciaTrie.insert` after family check and parsing: returns
`(new root, the node that was inserted or updated, size increment)`.

Follows the source step by step: walk down to `last_node`; on an exact
address match assign `last_node.value[mask] = data`; otherwise compute
the LCP with the reached node, walk back up while `cur_node.bit > lcp`
(on the recorded path; `cur_node` starts at the reached node because the
down-walk left it `None`), then create
`PatriciaNode(ip, rightmost_set_bit, {mask: data})` with
`rightmost_set_bit = width - ffs(ip) - 1`, hang it below the found node
on side `is_set(found.bit, ip)`, and re-hang the displaced subtree (the
up-walk's `last_node`, if any) below the new node on side
`is_set(new.bit, displaced.ip)`.

The two `[]` fallbacks are unreachable: the down-walk starts at the root,
which is never `None`, and the up-walk stops at the root because its bit
is `0 ≤ lcp`. -/
def insertCore (root : PTree V) (ip mask : Nat) (data : V) (v6 : Bool) :
    PTree V × PTree V × Nat :=
  let path := walkDown root ip v6
  match path.getLast? with
  | none => (root, root, 0)
  | some lastN =>
    if lastN.ipOf == ip then
      let updated : PTree V :=
        .node lastN.ipOf lastN.bitOf (dictSet lastN.valueOf mask data)
          lastN.leftOf lastN.rightOf
      (rebuild path.dropLast updated ip v6, updated, 0)
    else
      let lcp := longest_common_prefix_length ip lastN.ipOf v6
      let rev := path.reverse
      let dropped := rev.takeWhile (fun n => lcp < n.bitOf)
      match rev.dropWhile (fun n => lcp < n.bitOf) with
      | [] => (root, root, 0)
      | anchor :: above =>
        let width : Int := if v6 then 128 else 32
        let rsb : Nat := (width - ffs ip - 1).toNat
        let newNode : PTree V :=
          match dropped.getLast? with
          | none => .node ip rsb [(mask, data)] .nil .nil
          | some d =>
              if is_set rsb d.ipOf v6 then .node ip rsb [(mask, data)] .nil d
              else .node ip rsb [(mask, data)] d .nil
        let anchorUpd := setChild anchor (is_set anchor.bitOf ip v6) newNode
        (rebuild above.reverse anchorUpd ip v6, newNode, 1)

/-- `PatriciaTrie.insert(prefix, data)`, with the collaborator's parse
already performed: `pV6 = is_v6(prefix)` and `parsed = cidr_atoi(prefix)`
(`none` when `cidr_atoi` raises a parse error).  Returns the state of the
trie after the call together with the result — the inserted node, or
the raised error.  Family validation happens first; note that the source
assigns `self.v6 = v6` *before* calling `cidr_atoi`, so a parse failure
still leaves the reassigned family flag behind. -/
def insertParsed (t : Trie V) (pV6 : Bool) (parsed : Option (Nat × Nat))
    (data : V) : Trie V × Except String (PTree V) :=
  if t.v6 && !pV6 then (t, .error "Cannot store IPv4 prefix in IPv6 trie")
  else if !t.v6 && pV6 && decide (0 < t.size) then
    (t, .error "Cannot store IPv6 prefix in IPv4 trie")
  else
    let t1 : Trie V := { t with v6 := pV6 }
    match parsed with
    | none => (t1, .error "ParseError")
    | some (ip, mask) =>
      let res := insertCore t1.root ip mask data pV6
      ({ root := res.1, v6 := pV6, size := t1.size + res.2.2 }, .ok res.2.1)

/-- `insert` on a successfully parsed prefix. -/
def insertT (t : Trie V) (pV6 : Bool) (ip mask : Nat) (data : V) :
    Trie V × Except String (PTree V) :=
  insertParsed t pV6 (some (ip, mask)) data

/-- `PatriciaTrie.find(prefix)`: after the family check, walk down with
the parsed ip and return the first visited node whose `ip` equals it
(`none` when no visited node matches). -/
def find (t : Trie V) (pV6 : Bool) (ip : Nat) : Except String (Option (PTree V)) :=
  if pV6 && !t.v6 then .error "Trying to find IPv6 value in IPv4 trie"
  else if !pV6 && t.v6 then .error "Trying to find IPv4 value in IPv6 trie"
  else .ok ((walkDown t.root ip pV6).find? (fun n => n.ipOf == ip))

/-- The attribute access `node.mask` performed by `find_all`:
`PatriciaNode.__init__` assigns only `ip`, `bit`, `value`, `parent`,
`left` and `right`, so no node has a `mask` attribute and the access
raises `AttributeError` — modelled as `none`. -/
def PTree.maskAttr : PTree V → Option Nat :=
  fun _ => none

/-- The loop body of `find_all`: for each visited node evaluate
`node.ip == (ip & get_subnet_mask(node.mask, v6)) and node.value is not
None` and collect the matching nodes.  Reading `node.mask` raises
`AttributeError` on the first visited node; the `some` branch spells out
what the source would compute if the attribute existed. -/
def findAllLoop (ip : Nat) (v6 : Bool) : List (PTree V) → Except String (List (PTree V))
  | [] => .ok []
  | n :: rest =>
    match n.maskAttr with
    | none => .error "AttributeError: 'PatriciaNode' object has no attribute 'mask'"
    | some m =>
      match findAllLoop ip v6 rest with
      | .error e => .error e
      | .ok tail =>
          if n.ipOf == ip &&& get_subnet_mask m v6 then .ok (n :: tail)
          else .ok tail

/-- `PatriciaTrie.find_all(prefix)`: family check, then the traversal
loop above over the visited nodes. -/
def find_all (t : Trie V) (pV6 : Bool) (ip : Nat) : Except String (List (PTree V)) :=
  if pV6 && !t.v6 then .error "Trying to find IPv6 value in IPv4 trie"
  else if !pV6 && t.v6 then .error "Trying to find IPv4 value in IPv6 trie"
  else findAllLoop ip pV6 (walkDown t.root ip pV6)

/-- `traverse_preorder_from_node`: the explicit-stack loop of the source
(push and yield, go left; on pop go right) yields the classic preorder:
node, left subtree, right subtree. -/
def preorder : PTree V → List (PTree V)
  | .nil => []
  | .node ip bit value l r =>
      .node ip bit value l r :: (preorder l ++ preorder r)

/-- `traverse_inorder_from_node`: the stack loop yields the classic
inorder: left subtree, node, right subtree. -/
def inorder : PTree V → List (PTree V)
  | .nil => []
  | .node ip bit value l r =>
      inorder l ++ (.node ip bit value l r :: inorder r)

/-- `traverse_postorder_from_node`: the stack loop yields the classic
postorder: left subtree, right subtree, node. -/
def postorder : PTree V → List (PTree V)
  | .nil => []
  | .node ip bit value l r =>
      postorder l ++ postorder r ++ [.node ip bit value l r]

/-- Nodes of the trie holding a given address (used to state the
"at most one node per inserted address" invariant). -/
def nodesWithIp (t : PTree V) (ip : Nat) : List (PTree V) :=
  (preorder t).filter (fun n => n.ipOf == ip)


/-! ## Small dictionary lemmas -/

theorem dictGet_dictSet_self (l : List (Nat × V)) (k : Nat) (v : V) :
    dictGet (dictSet l k v) k = some v := by
  induction l with
  | nil => simp [dictSet, dictGet]
  | cons hd tl ih =>
    obtain ⟨k', v'⟩ := hd
    by_cases hk : k' = k
    · simp [dictSet, dictGet, hk]
    · simp [dictSet, dictGet, hk, ih]

theorem dictGet_dictSet_of_ne (l : List (Nat × V)) (k k' : Nat) (v : V)
    (h : k' ≠ k) : dictGet (dictSet l k v) k' = dictGet l k' := by
  induction l with
  | nil =>
    simp [dictSet, dictGet]
    omega
  | cons hd tl ih =>
    obtain ⟨k0, v0⟩ := hd
    by_cases hk : k0 = k
    · subst hk
      simp [dictSet, dictGet, Ne.symm h]
    · simp [dictSet, dictGet, hk, ih]

/-! ## Bit-arithmetic lemmas

The key fact behind the placement of new nodes: for a nonzero address,
`ffs` really is the index of the least significant set bit, so the bit
`width - ffs(ip) - 1` (counted from the MSB) is set in `ip`. -/

theorem bitLength_zero (fuel : Nat) : bitLength fuel 0 = 0 := by
  cases fuel <;> simp [bitLength]

theorem bitLength_two_pow (t : Nat) :
    ∀ fuel : Nat, t < fuel → bitLength fuel (2 ^ t) = t + 1 := by
  induction t with
  | zero =>
    intro fuel hf
    match fuel, hf with
    | fuel + 1, _ => simp [bitLength, bitLength_zero]
  | succ s ih =>
    intro fuel hf
    match fuel, hf with
    | fuel + 1, hf =>
      have hpos : 2 ^ (s + 1) ≠ 0 := Nat.pos_iff_ne_zero.mp (Nat.pos_pow_of_pos _ (by norm_num))
      have hshift : 2 ^ (s + 1) >>> 1 = 2 ^ s := by
        simp [Nat.shiftRight_succ, Nat.pow_succ, Nat.mul_div_cancel]
      simp only [bitLength, hshift]
      rw [if_neg (by simp [hpos])]
      rw [ih fuel (Nat.lt_of_succ_lt_succ hf)]

/-- For a positive `A` there is a bit index `t` (the trailing-zero count)
with `A`'s bit `t` set, such that `A & ~(A-1)` keeps exactly bit `t`. -/
theorem lowBit_spec : ∀ A : Nat, 0 < A →
    ∃ t, A.testBit t = true
      ∧ (∀ i, (A.testBit i && !((A - 1).testBit i)) = decide (i = t))
      ∧ 2 ^ t ≤ A := by
  intro A
  induction A using Nat.strong_induction_on with
  | _ A ih =>
    intro hA
    by_cases hpar : A % 2 = 1
    · refine ⟨0, ?_, ?_, ?_⟩
      · simp [Nat.testBit_zero, hpar]
      · intro i
        cases i with
        | zero =>
          have h0 : (A - 1) % 2 = 0 := by omega
          simp [Nat.testBit_zero, hpar, h0]
        | succ j =>
          have hdiv : (A - 1) / 2 = A / 2 := by omega
          rw [Nat.testBit_succ, Nat.testBit_succ, hdiv]
          simp
      · omega
    · have hk0 : 0 < A / 2 := by omega
      have hklt : A / 2 < A := by omega
      obtain ⟨t, h1, h2, h3⟩ := ih (A / 2) hklt hk0
      refine ⟨t + 1, ?_, ?_, ?_⟩
      · rw [Nat.testBit_succ]
        exact h1
      · intro i
        cases i with
        | zero =>
          have h0 : A % 2 = 0 := by omega
          simp [Nat.testBit_zero, h0]
        | succ j =>
          have hdiv : (A - 1) / 2 = A / 2 - 1 := by omega
          rw [Nat.testBit_succ, Nat.testBit_succ, hdiv, h2 j]
          simp
      · have : 2 ^ (t + 1) = 2 * 2 ^ t := by ring
        omega

/-- `x & -x` of a positive address keeps exactly the least significant
set bit. -/
theorem pyLowBit_spec (A : Nat) (h0 : 0 < A) (h : A < 2 ^ 128) :
    ∃ t, pyLowBit A = 2 ^ t ∧ A.testBit t = true ∧ 2 ^ t ≤ A := by
  obtain ⟨t, h1, h2, h3⟩ := lowBit_spec A h0
  refine ⟨t, ?_, h1, h3⟩
  have ht128 : t < 128 := by
    by_contra hcon
    have : 2 ^ 128 ≤ 2 ^ t := Nat.pow_le_pow_right (by norm_num) (by omega)
    omega
  have hsub : 2 ^ 128 - A = 2 ^ 128 - ((A - 1) + 1) := by omega
  have hA1 : A - 1 < 2 ^ 128 := by omega
  apply Nat.eq_of_testBit_eq
  intro i
  rw [pyLowBit, Nat.testBit_land, hsub, Nat.testBit_two_pow_sub_succ hA1]
  by_cases hi : i < 128
  · rw [show (A.testBit i && (decide (i < 128) && !(A - 1).testBit i))
          = (A.testBit i && !(A - 1).testBit i) by simp [hi]]
    rw [h2 i, Nat.testBit_two_pow]
    by_cases hit : i = t
    · simp [hit]
    · simp [hit, Ne.symm hit]
  · have hAi : A.testBit i = false :=
      Nat.testBit_lt_two_pow (lt_of_lt_of_le h (Nat.pow_le_pow_right (by norm_num) (by omega)))
    rw [hAi, Nat.testBit_two_pow]
    have : t ≠ i := by omega
    simp [this]

/-- `ffs` of a positive address is the index of its least significant
set bit. -/
theorem ffs_spec (A : Nat) (h0 : 0 < A) (h : A < 2 ^ 128) :
    ∃ t : Nat, ffs A = (t : Int) ∧ A.testBit t = true ∧ 2 ^ t ≤ A := by
  obtain ⟨t, h1, h2, h3⟩ := pyLowBit_spec A h0 h
  have ht128 : t < 128 := by
    by_contra hcon
    have : 2 ^ 128 ≤ 2 ^ t := Nat.pow_le_pow_right (by norm_num) (by omega)
    omega
  refine ⟨t, ?_, h2, h3⟩
  rw [ffs, h1, bitLength_two_pow t 200 (by omega)]
  push_cast
  ring

/-- The bit at which `insert` branches a freshly created v4 node —
`32 - ffs(ip) - 1` from the MSB — is set in the node's own address. -/
theorem is_set_rsb (A : Nat) (h0 : 0 < A) (h32 : A < 2 ^ 32) :
    is_set (((32 : Int) - ffs A - 1).toNat) A false = true := by
  obtain ⟨t, hf, htb, hle⟩ :=
    ffs_spec A h0 (lt_of_lt_of_le h32 (Nat.pow_le_pow_right (by norm_num) (by norm_num)))
  have ht31 : t ≤ 31 := by
    by_contra hcon
    have : 2 ^ 32 ≤ 2 ^ t := Nat.pow_le_pow_right (by norm_num) (by omega)
    omega
  have hb : ((32 : Int) - ffs A - 1).toNat = 31 - t := by
    rw [hf]
    omega
  rw [hb, is_set]
  have hsub : 31 - (31 - t) = t := by omega
  rw [if_neg (by simp)]
  · rw [hsub, Nat.one_shiftLeft]
    have hbit : (A &&& 2 ^ t).testBit t = true := by
      simp [Nat.testBit_land, htb, Nat.testBit_two_pow]
    have hne : A &&& 2 ^ t ≠ 0 := by
      intro hz
      rw [hz] at hbit
      simp [Nat.zero_testBit] at hbit
    simpa [bne_iff_ne] using hne

/-! ## Concrete scenarios

Addresses are written as their integer values:
`3232235520 = 0xC0A80000 = 192.168.0.0`,
`3232263936 = 0xC0A86F00 = 192.168.111.0`,
`3229614080 = 0xC0800000 = 192.128.0.0`,
`3221225472 = 0xC0000000 = 192.0.0.0`,
`536870912 = 0x20000000 = 32.0.0.0`,
`538968064 = 0x20200000 = 32.32.0.0`,
`538968069 = 0x20200005 = 32.32.0.5`. -/

/-- `trie.insert("192.168.0.0/16", 1)` on a fresh trie. -/
def trieA : Trie Nat := (insertT Trie.empty false 0xC0A80000 16 1).1

/-- ... then `trie.insert("192.168.111.0/24", 2)`. -/
def trieAB : Trie Nat := (insertT trieA false 0xC0A86F00 24 2).1

/-- ... then `trie.insert("192.168.0.0/24", 3)`: the address
`192.168.0.0` is already stored but the walk runs past its node, so a
second node with the same address is created. -/
def trieABA : Trie Nat := (insertT trieAB false 0xC0A80000 24 3).1

/-- The node `find("192.168.0.0/24")` returns on `trieABA`: the first
node on the search path holding `192.168.0.0` — the one created by the
first insert, whose mask dict still only maps `16 ↦ 1`. -/
def trieABAFound : PTree Nat :=
  .node 0xC0A80000 12 [(16, 1)] .nil
    (.node 0xC0A80000 12 [(24, 3)] .nil
      (.node 0xC0A86F00 23 [(24, 2)] .nil .nil))

/-- The spec's specificity-ordering scenario:
`0.0.0.0/0 -> "internet"`, `32.0.0.0/8 -> "RIR"`,
`32.32.0.0/16 -> "sub"` inserted into a fresh trie. -/
def specTrie : Trie String :=
  (insertT (insertT ((insertT (Trie.empty (V := String)) false 0 0 "internet").1)
      false 0x20000000 8 "RIR").1 false 0x20200000 16 "sub").1

/-- `insert("192.128.0.0/9", 1)` then `insert("192.0.0.0/2", 2)` on a
fresh trie: the second node is attached *below* the first although its
branch bit (1) is smaller than the first node's branch bit (8). -/
def steepTrie : Trie Nat :=
  (insertT (insertT (Trie.empty (V := Nat)) false 0xC0800000 9 1).1
      false 0xC0000000 2 2).1

/-- A v4 trie whose only insert was `0.0.0.0/0` (value `7`): the value
lands on the root and `size` stays `0`. -/
def rootOnlyV4 : Trie Nat := (insertT Trie.empty false 0 0 7).1

/-! ## Claims -/

/-- C1: the round-trip property fails on the code.  After the reachable
insert sequence `192.168.0.0/16 -> 1`, `192.168.111.0/24 -> 2`, the
insert `192.168.0.0/24 -> 3` creates a *second* node for `192.168.0.0`
(visible in `trieABA`), and `find("192.168.0.0/24")` then returns the
first node for that address, whose mask dict maps only `16 ↦ 1`: the
inserted value `3` is not present under key `24` in the returned node. -/
theorem find_after_insert_misses_inserted_value :
    trieABA.root
      = PTree.node 0 0 [] .nil
          (.node 0xC0A80000 12 [(16, 1)] .nil
            (.node 0xC0A80000 12 [(24, 3)] .nil
              (.node 0xC0A86F00 23 [(24, 2)] .nil .nil)))
    ∧ find trieABA false 0xC0A80000 = .ok (some trieABAFound)
    ∧ dictGet trieABAFound.valueOf 24 = none
    ∧ dictGet trieABAFound.valueOf 16 = some 1 :=
  ⟨rfl, rfl, rfl, rfl⟩

/-- C2: `find_all` cannot return the claimed ordered values because its
loop reads the attribute `node.mask`, which `PatriciaNode` does not
define; on the spec's own scenario the very first visited node raises
`AttributeError`.  The trie itself is built exactly as the claim
describes (shown by the first conjunct). -/
theorem find_all_raises_attribute_error :
    specTrie.root
      = PTree.node 0 0 [(0, "internet")]
          (.node 0x20000000 2 [(8, "RIR")] .nil
            (.node 0x20200000 10 [(16, "sub")] .nil .nil)) .nil
    ∧ find_all specTrie false 0x20200005
        = .error "AttributeError: 'PatriciaNode' object has no attribute 'mask'" :=
  ⟨rfl, rfl⟩

/-- C4: the branch-bit monotonicity invariant I1 fails on a state
reachable by two inserts.  In `steepTrie` the node for `192.0.0.0`
(branch bit 1) is the *left child* of the node for `192.128.0.0`
(branch bit 8): a non-root node whose branch bit is strictly smaller
than its parent's. -/
theorem child_branch_bit_below_parent :
    steepTrie.root.rightOf.ipOf = 0xC0800000
    ∧ steepTrie.root.rightOf.bitOf = 8
    ∧ steepTrie.root.rightOf.leftOf.ipOf = 0xC0000000
    ∧ steepTrie.root.rightOf.leftOf.bitOf = 1
    ∧ steepTrie.root.rightOf.leftOf.bitOf < steepTrie.root.rightOf.bitOf :=
  ⟨rfl, rfl, rfl, rfl, by decide⟩

/-- C5 counterexample: `longest_common_prefix_length(X, X, v4)` is `31`,
not the claimed full width `32`, because `fls(0) = 0` makes the
computation `32 - 0 - 1`. -/
theorem lcp_self_ne_width :
    longest_common_prefix_length 5 5 false ≠ 32
    ∧ longest_common_prefix_length 5 5 false = 31 :=
  ⟨by decide, by decide⟩

/-- C5 amended: for every address `X` and family,
`longest_common_prefix_length(X, X, family)` equals `width - 1` (31 for
v4, 127 for v6), because `fls(0, family) = 0` and the function computes
`width - fls(X xor X) - 1`. -/
theorem lcp_self_eq_width_sub_one (X : Nat) (v6 : Bool) :
    longest_common_prefix_length X X v6 = (if v6 then 128 else 32) - 1
    ∧ fls 0 v6 = 0 := by
  constructor
  · simp [longest_common_prefix_length, Nat.xor_self, fls]
  · simp [fls]

/-- C9 counterexample: on the freshly constructed trie the preorder
traversal from the root yields exactly the sentinel root node, although
its mask dict is empty — there is no special-casing of the root.
(The same holds for inorder and postorder.) -/
theorem traversals_yield_bare_root :
    preorder (Trie.empty (V := String)).root = [(Trie.empty (V := String)).root]
    ∧ inorder (Trie.empty (V := String)).root = [(Trie.empty (V := String)).root]
    ∧ postorder (Trie.empty (V := String)).root = [(Trie.empty (V := String)).root]
    ∧ (Trie.empty (V := String)).root.valueOf = [] :=
  ⟨rfl, rfl, rfl, rfl⟩

/-- C9 amended: the traversals treat the root like any other node and
yield it unconditionally — first in preorder, last in postorder, between
the subtrees in inorder — whether or not it holds masks. -/
theorem traversals_yield_every_root (V : Type) (ip bit : Nat)
    (value : List (Nat × V)) (l r : PTree V) :
    (preorder (PTree.node ip bit value l r)).head? = some (PTree.node ip bit value l r)
    ∧ (postorder (PTree.node ip bit value l r)).getLast?
        = some (PTree.node ip bit value l r)
    ∧ PTree.node ip bit value l r ∈ inorder (PTree.node ip bit value l r) := by
  refine ⟨rfl, ?_, ?_⟩
  · show (postorder l ++ postorder r ++ [PTree.node ip bit value l r]).getLast? = _
    exact List.getLast?_concat _
  · show PTree.node ip bit value l r ∈ inorder l ++ (PTree.node ip bit value l r :: inorder r)
    simp

/-- C10: inserting a prefix that parses to the integer address 0 (such
as `0.0.0.0/0`) into a fresh trie takes the exact-match branch at the
sentinel root: the value is stored in the root's mask dict under the
prefix length, the root is returned, `size` stays 0, and `find` on the
same prefix returns the root. -/
theorem insert_zero_address_updates_root (V : Type) (mask : Nat) (v : V) :
    insertT (Trie.empty (V := V)) false 0 mask v
      = ({ root := .node 0 0 [(mask, v)] .nil .nil, v6 := false, size := 0 },
         .ok (.node 0 0 [(mask, v)] .nil .nil))
    ∧ find { root := PTree.node 0 0 [(mask, v)] .nil .nil, v6 := false, size := 0 }
        false 0
      = .ok (some (.node 0 0 [(mask, v)] .nil .nil)) := by
  exact ⟨rfl, rfl⟩

/-- C3 counterexample: inserting `192.168.111.0/24` after
`192.168.0.0/16` creates a new node with branch bit 23 — the position of
the new address's least-significant set bit — although the longest
common prefix length with the candidate leaf is 17 and the differing bit
(`fls` of the xor) is 14, not 0, so the claim demands branch bit 17. -/
theorem new_node_bit_ne_lcp :
    (insertT trieA false 0xC0A86F00 24 (2 : Nat)).2
      = .ok (.node 0xC0A86F00 23 [(24, 2)] .nil .nil)
    ∧ longest_common_prefix_length 0xC0A86F00 0xC0A80000 false = 17
    ∧ fls (0xC0A86F00 ^^^ 0xC0A80000) false ≠ 0
    ∧ (PTree.node 0xC0A86F00 23 [(24, (2 : Nat))] .nil .nil).bitOf
        ≠ longest_common_prefix_length 0xC0A86F00 0xC0A80000 false :=
  ⟨rfl, rfl, by decide, by decide⟩

/-- C3 amended: whenever `insert` creates a new node (the size grows),
the new node's branch bit is *always* `width - ffs(address) - 1`, the
position of the address's least-significant set bit; the longest common
prefix length is used only to choose the attachment point, never as the
branch bit. -/
theorem insertCore_delta_or_bit (root : PTree V) (ip mask : Nat) (d : V)
    (v6 : Bool) :
    (insertCore root ip mask d v6).2.2 = 0
    ∨ (insertCore root ip mask d v6).2.1.bitOf
        = (((if v6 then 128 else 32) : Int) - ffs ip - 1).toNat := by
  simp only [insertCore]
  rcases hL : (walkDown root ip v6).getLast? with _ | lastN <;> simp only [hL]
  · exact Or.inl (by simp)
  · by_cases hip : (lastN.ipOf == ip) = true
    · rw [if_pos hip]
      exact Or.inl (by simp)
    · rw [if_neg hip]
      rcases hdw : List.dropWhile
          (fun n => decide (longest_common_prefix_length ip lastN.ipOf v6 < n.bitOf))
          (walkDown root ip v6).reverse with _ | ⟨anchor, above⟩ <;> simp only [hdw]
      · exact Or.inl (by simp)
      · refine Or.inr ?_
        rcases hD : (List.takeWhile
            (fun n => decide (longest_common_prefix_length ip lastN.ipOf v6 < n.bitOf))
            (walkDown root ip v6).reverse).getLast? with _ | dis <;> simp only [hD]
        · rfl
        · by_cases hset : is_set (((if v6 then (128 : Int) else 32) - ffs ip - 1).toNat)
              dis.ipOf v6 = true
          · rw [if_pos hset]
            rfl
          · rw [if_neg hset]
            rfl

theorem new_node_bit_eq_rsb (V : Type) (t : Trie V) (pV6 : Bool)
    (ip mask : Nat) (d : V) (n : PTree V)
    (hok : (insertT t pV6 ip mask d).2 = .ok n)
    (hsz : (insertT t pV6 ip mask d).1.size = t.size + 1) :
    n.bitOf = (((if pV6 then 128 else 32) : Int) - ffs ip - 1).toNat := by
  by_cases hg1 : (t.v6 && !pV6) = true
  · simp [insertT, insertParsed, hg1] at hok
  · by_cases hg2 : (!t.v6 && pV6 && decide (0 < t.size)) = true
    · simp [insertT, insertParsed, hg1, hg2] at hok
    · have hok2 : (insertCore t.root ip mask d pV6).2.1 = n := by
        have : (insertT t pV6 ip mask d).2
            = .ok (insertCore t.root ip mask d pV6).2.1 := by
          simp [insertT, insertParsed, hg1, hg2]
        rw [this] at hok
        exact Except.ok.inj hok
      have hsz2 : t.size + (insertCore t.root ip mask d pV6).2.2 = t.size + 1 := by
        have : (insertT t pV6 ip mask d).1.size
            = t.size + (insertCore t.root ip mask d pV6).2.2 := by
          simp [insertT, insertParsed, hg1, hg2]
        rw [this] at hsz
        exact hsz
      rcases insertCore_delta_or_bit t.root ip mask d pV6 with hzero | hbit
      · omega
      · rw [← hok2]
        exact hbit

/-- C3 amended witness: the counterexample insert itself — the created
node's branch bit is `32 - ffs(192.168.111.0) - 1 = 23`. -/
theorem new_node_bit_eq_rsb_witness :
    (PTree.node 0xC0A86F00 23 [(24, (2 : Nat))] .nil .nil).bitOf
      = (((32 : Int)) - ffs 0xC0A86F00 - 1).toNat := by
  have h := new_node_bit_eq_rsb Nat trieA false 0xC0A86F00 24 2
    (.node 0xC0A86F00 23 [(24, 2)] .nil .nil) rfl rfl
  simpa using h

/-- C6 counterexample: a fresh trie receives the successful v4 insert
`0.0.0.0/0 -> 7` (exact match on the root, so `size` stays 0); a
subsequent v6 insert is then *accepted* — it returns a node instead of
raising `FamilyMismatch`, because the guard requires `size > 0` to
reject a v6 insert into a v4 trie. -/
theorem v6_insert_accepted_after_v4_insert :
    (insertT (Trie.empty (V := Nat)) false 0 0 7).2
        = .ok (.node 0 0 [(0, 7)] .nil .nil)
    ∧ rootOnlyV4.v6 = false
    ∧ rootOnlyV4.size = 0
    ∧ (insertT rootOnlyV4 true 0 0 9).2 = .ok (.node 0 0 [(0, 9)] .nil .nil)
    ∧ (insertT rootOnlyV4 true 0 0 9).1.v6 = true :=
  ⟨rfl, rfl, rfl, rfl, rfl⟩

/-- C6 amended: a v4 trie rejects v6 *inserts* only while its size is
positive (a v4 trie whose inserts all landed on the root has size 0 and
accepts a family switch), and rejects v6 *lookups* unconditionally; a
v6-flagged trie rejects v4 inserts and lookups unconditionally; the
fresh trie accepts either family's first insert. -/
theorem family_lock_guards (V : Type) :
    (∀ t : Trie V, t.v6 = false →
      (∀ ip, find t true ip = .error "Trying to find IPv6 value in IPv4 trie")
      ∧ (0 < t.size →
          ∀ (parsed : Option (Nat × Nat)) (d : V), insertParsed t true parsed d
            = (t, .error "Cannot store IPv6 prefix in IPv4 trie")))
    ∧ (∀ t : Trie V, t.v6 = true →
      (∀ (parsed : Option (Nat × Nat)) (d : V), insertParsed t false parsed d
          = (t, .error "Cannot store IPv4 prefix in IPv6 trie"))
      ∧ (∀ ip, find t false ip = .error "Trying to find IPv4 value in IPv6 trie"))
    ∧ (∀ (pV6 : Bool) (ip mask : Nat) (d : V),
        (insertParsed (Trie.empty (V := V)) pV6 (some (ip, mask)) d).2.isOk = true) := by
  refine ⟨?_, ?_, ?_⟩
  · intro t hv
    refine ⟨fun ip => ?_, fun hsz parsed d => ?_⟩
    · simp [find, hv]
    · simp [insertParsed, hv, hsz]
  · intro t hv
    refine ⟨fun parsed d => ?_, fun ip => ?_⟩
    · simp [insertParsed, hv]
    · simp [find, hv]
  · intro pV6 ip mask d
    cases pV6 <;> simp [insertParsed, Trie.empty, Except.isOk, Except.toBool]

/-- A v4 trie with one real (non-root) node, for exercising the family
guards. -/
def lockedV4 : Trie Nat :=
  { root := .node 0 0 [] .nil .nil, v6 := false, size := 1 }

/-- A v6-flagged trie, for exercising the family guards. -/
def lockedV6 : Trie Nat :=
  { root := .node 0 0 [] .nil .nil, v6 := true, size := 1 }

/-- C6 amended witness: the guards evaluated on concrete tries —
including a v6 lookup on the size-0 root-only v4 trie, which raises
even though an insert would not. -/
theorem family_lock_guards_witness :
    find rootOnlyV4 true 5 = .error "Trying to find IPv6 value in IPv4 trie"
    ∧ insertParsed lockedV4 true none (7 : Nat)
        = (lockedV4, .error "Cannot store IPv6 prefix in IPv4 trie")
    ∧ find lockedV4 true 5 = .error "Trying to find IPv6 value in IPv4 trie"
    ∧ insertParsed lockedV6 false none (7 : Nat)
        = (lockedV6, .error "Cannot store IPv4 prefix in IPv6 trie")
    ∧ find lockedV6 false 5 = .error "Trying to find IPv4 value in IPv6 trie"
    ∧ (insertParsed (Trie.empty (V := Nat)) true (some (1, 128)) 7).2.isOk = true :=
  ⟨((family_lock_guards Nat).1 rootOnlyV4 rfl).1 5,
   ((family_lock_guards Nat).1 lockedV4 rfl).2 (by decide) none 7,
   ((family_lock_guards Nat).1 lockedV4 rfl).1 5,
   ((family_lock_guards Nat).2.1 lockedV6 rfl).1 none 7,
   ((family_lock_guards Nat).2.1 lockedV6 rfl).2 5,
   (family_lock_guards Nat).2.2 true 1 128 7⟩

/-- C7 counterexample: `insert` assigns the family flag *before* calling
the parser, so an insert that fails with a parse error leaves the trie's
locked family changed: after a v4 insert of `0.0.0.0/0`, a failed v6
insert flips `v6` to `true`, and a subsequent well-formed v4 insert is
then rejected even though the trie only ever stored v4 data. -/
theorem parse_error_flips_family_flag :
    rootOnlyV4.v6 = false
    ∧ insertParsed rootOnlyV4 true none (0 : Nat)
        = ({ rootOnlyV4 with v6 := true }, .error "ParseError")
    ∧ (insertParsed ({ rootOnlyV4 with v6 := true }) false (some (0, 0)) (0 : Nat)).2
        = .error "Cannot store IPv4 prefix in IPv6 trie" :=
  ⟨rfl, rfl, rfl⟩

/-- C7 amended: a failed insert never creates or modifies a node and
never changes the size; an insert failing the *family* check leaves the
trie entirely unchanged, but an insert whose parse fails leaves the
family flag reassigned to the failed prefix's family. -/
theorem failed_insert_state (V : Type) (t : Trie V) (pV6 : Bool)
    (parsed : Option (Nat × Nat)) (d : V) (msg : String)
    (herr : (insertParsed t pV6 parsed d).2 = .error msg) :
    (insertParsed t pV6 parsed d).1.root = t.root
    ∧ (insertParsed t pV6 parsed d).1.size = t.size
    ∧ (msg ≠ "ParseError" → insertParsed t pV6 parsed d = (t, .error msg))
    ∧ (msg = "ParseError" → (insertParsed t pV6 parsed d).1 = { t with v6 := pV6 }) := by
  by_cases hg1 : (t.v6 && !pV6) = true
  · have hres : insertParsed t pV6 parsed d
        = (t, .error "Cannot store IPv4 prefix in IPv6 trie") := by
      simp [insertParsed, hg1]
    rw [hres] at herr ⊢
    simp only [Except.error.injEq] at herr
    subst herr
    refine ⟨rfl, rfl, fun _ => rfl, fun hmsg => absurd hmsg (by decide)⟩
  · by_cases hg2 : (!t.v6 && pV6 && decide (0 < t.size)) = true
    · have hres : insertParsed t pV6 parsed d
          = (t, .error "Cannot store IPv6 prefix in IPv4 trie") := by
        simp [insertParsed, hg1, hg2]
      rw [hres] at herr ⊢
      simp only [Except.error.injEq] at herr
      subst herr
      refine ⟨rfl, rfl, fun _ => rfl, fun hmsg => absurd hmsg (by decide)⟩
    · cases parsed with
      | none =>
        have hres : insertParsed t pV6 none d
            = ({ t with v6 := pV6 }, .error "ParseError") := by
          simp [insertParsed, hg1, hg2]
        rw [hres] at herr ⊢
        simp only [Except.error.injEq] at herr
        subst herr
        exact ⟨rfl, rfl, fun hne => absurd rfl hne, fun _ => rfl⟩
      | some pr =>
        exfalso
        obtain ⟨ip, mask⟩ := pr
        have : (insertParsed t pV6 (some (ip, mask)) d).2
            = .ok (insertCore t.root ip mask d pV6).2.1 := by
          simp [insertParsed, hg1, hg2]
        rw [this] at herr
        exact Except.noConfusion herr

/-- C7 amended witness: the theorem applied to a family-mismatch insert
and to a parse failure on concrete tries. -/
theorem failed_insert_state_witness :
    (insertParsed lockedV6 false (some (0, 0)) (0 : Nat)).1.root = lockedV6.root
    ∧ (insertParsed lockedV6 false (some (0, 0)) (0 : Nat)).1.size = lockedV6.size
    ∧ (insertParsed rootOnlyV4 true none (0 : Nat)).1
        = { rootOnlyV4 with v6 := true } :=
  ⟨(failed_insert_state Nat lockedV6 false (some (0, 0)) 0
      "Cannot store IPv4 prefix in IPv6 trie" rfl).1,
   (failed_insert_state Nat lockedV6 false (some (0, 0)) 0
      "Cannot store IPv4 prefix in IPv6 trie" rfl).2.1,
   (failed_insert_state Nat rootOnlyV4 true none 0 "ParseError" rfl).2.2.2 rfl⟩

/-! ## Symbolic evaluation of the first two inserts on a fresh trie -/

theorem walkDown_fresh (A : Nat) :
    walkDown (PTree.node 0 0 ([] : List (Nat × V)) .nil .nil) A false
      = [PTree.node 0 0 [] .nil .nil] := by
  cases hmsb : is_set 0 A false <;> simp [walkDown, hmsb]

theorem insertCore_fresh (A p : Nat) (v : V) (hz : A ≠ 0) :
    insertCore (PTree.node 0 0 [] .nil .nil) A p v false
      = (setChild (PTree.node 0 0 [] .nil .nil) (is_set 0 A false)
           (.node A (((32 : Int) - ffs A - 1).toNat) [(p, v)] .nil .nil),
         .node A (((32 : Int) - ffs A - 1).toNat) [(p, v)] .nil .nil, 1) := by
  have hbeq : (0 == A) = false := by
    simp [Ne.symm hz]
  simp only [insertCore, walkDown_fresh]
  simp [PTree.ipOf, PTree.bitOf, hbeq, rebuild]

theorem insertCore_second (A p2 B : Nat) (val : List (Nat × V)) (v2 : V)
    (b : Bool) (hb : is_set 0 A false = b) (hset : is_set B A false = true) :
    insertCore (setChild (PTree.node 0 0 [] .nil .nil) b (.node A B val .nil .nil))
        A p2 v2 false
      = (setChild (PTree.node 0 0 [] .nil .nil) b
           (.node A B (dictSet val p2 v2) .nil .nil),
         .node A B (dictSet val p2 v2) .nil .nil, 0) := by
  cases b <;>
    simp [insertCore, walkDown, setChild, hb, hset, rebuild,
      PTree.ipOf, PTree.bitOf, PTree.valueOf, PTree.leftOf, PTree.rightOf]

/-- The trie after inserting `(A, p1) -> v1` into a fresh v4 trie. -/
def trieOnce (V : Type) (A p1 : Nat) (v1 : V) : Trie V :=
  (insertT (Trie.empty (V := V)) false A p1 v1).1

/-- The trie after inserting `(A, p1) -> v1` and then `(A, p2) -> v2`
into a fresh v4 trie. -/
def trieTwice (V : Type) (A p1 p2 : Nat) (v1 v2 : V) : Trie V :=
  (insertT (trieOnce V A p1 v1) false A p2 v2).1

theorem trieOnce_eq (V : Type) (A p1 : Nat) (v1 : V) (hz : A ≠ 0) :
    trieOnce V A p1 v1
      = { root := setChild (PTree.node 0 0 [] .nil .nil) (is_set 0 A false)
            (.node A (((32 : Int) - ffs A - 1).toNat) [(p1, v1)] .nil .nil),
          v6 := false, size := 1 } := by
  simp [trieOnce, insertT, insertParsed, Trie.empty, insertCore_fresh A p1 v1 hz]

theorem trieTwice_eq (V : Type) (A p1 p2 : Nat) (v1 v2 : V)
    (h0 : 0 < A) (hA : A < 2 ^ 32) :
    trieTwice V A p1 p2 v1 v2
      = { root := setChild (PTree.node 0 0 [] .nil .nil) (is_set 0 A false)
            (.node A (((32 : Int) - ffs A - 1).toNat) (dictSet [(p1, v1)] p2 v2)
              .nil .nil),
          v6 := false, size := 1 } := by
  have hz : A ≠ 0 := Nat.pos_iff_ne_zero.mp h0
  have hset := is_set_rsb A h0 hA
  simp only [trieTwice]
  rw [trieOnce_eq V A p1 v1 hz]
  simp only [insertT, insertParsed]
  rw [insertCore_second A p2 (((32 : Int) - ffs A - 1).toNat) [(p1, v1)] v2
      (is_set 0 A false) rfl hset]
  simp

/-- C8 counterexample: for address 0 both inserts land on the sentinel
root: a single node (the root) does hold both entries, but the node
count stays 0 instead of increasing by 1 as claimed. -/
theorem colocated_zero_address_size :
    trieOnce Nat 0 0 10
        = { root := .node 0 0 [(0, 10)] .nil .nil, v6 := false, size := 0 }
    ∧ trieTwice Nat 0 0 1 10 20
        = { root := .node 0 0 [(0, 10), (1, 20)] .nil .nil, v6 := false, size := 0 }
    ∧ (trieTwice Nat 0 0 1 10 20).size ≠ (Trie.empty (V := Nat)).size + 1 :=
  ⟨rfl, rfl, by decide⟩

/-- C8 amended: inserting `(A, p1, v1)` then `(A, p2, v2)` into a fresh
trie leaves exactly one node holding address `A`; its mask dict maps
`p2` to `v2`, and still maps `p1` to `v1` when `p1 ≠ p2` (when
`p1 = p2` the second value has overwritten the first); the second insert
never changes the node count, and the first insert contributes one node
when `A ≠ 0` but zero when `A = 0` (the entries then fold into the
sentinel root). -/
theorem colocated_inserts_fold_into_one_node (V : Type) (A p1 p2 : Nat)
    (v1 v2 : V) (hA : A < 2 ^ 32) :
    (nodesWithIp (trieTwice V A p1 p2 v1 v2).root A).length = 1
    ∧ (∀ n ∈ nodesWithIp (trieTwice V A p1 p2 v1 v2).root A,
        dictGet n.valueOf p2 = some v2
        ∧ (p1 ≠ p2 → dictGet n.valueOf p1 = some v1))
    ∧ (trieTwice V A p1 p2 v1 v2).size = (trieOnce V A p1 v1).size
    ∧ (trieOnce V A p1 v1).size = (if A = 0 then 0 else 1) := by
  by_cases hz : A = 0
  · subst hz
    have h1 : trieOnce V 0 p1 v1
        = { root := .node 0 0 [(p1, v1)] .nil .nil, v6 := false, size := 0 } := rfl
    have h2 : trieTwice V 0 p1 p2 v1 v2
        = { root := .node 0 0 (dictSet [(p1, v1)] p2 v2) .nil .nil,
            v6 := false, size := 0 } := by
      with_unfolding_all rfl
    rw [h1, h2]
    refine ⟨?_, ?_, rfl, by simp⟩
    · simp [nodesWithIp, preorder, PTree.ipOf]
    · intro n hn
      simp [nodesWithIp, preorder, PTree.ipOf] at hn
      subst hn
      refine ⟨?_, fun hne => ?_⟩
      · simp [PTree.valueOf, dictGet_dictSet_self]
      · simp only [PTree.valueOf]
        rw [dictGet_dictSet_of_ne _ _ _ _ hne]
        simp [dictGet]
  · have h0 : 0 < A := Nat.pos_of_ne_zero hz
    have h1 := trieOnce_eq V A p1 v1 hz
    have h2 := trieTwice_eq V A p1 p2 v1 v2 h0 hA
    have hbeq : (0 == A) = false := by simp [Ne.symm hz]
    rw [h1, h2]
    cases hmsb : is_set 0 A false
    · refine ⟨?_, ?_, rfl, by simp [hz]⟩
      · simp [nodesWithIp, preorder, setChild, PTree.ipOf, hbeq]
      · intro n hn
        simp [nodesWithIp, preorder, setChild, PTree.ipOf, hbeq] at hn
        subst hn
        refine ⟨?_, fun hne => ?_⟩
        · simp [PTree.valueOf, dictGet_dictSet_self]
        · simp only [PTree.valueOf]
          rw [dictGet_dictSet_of_ne _ _ _ _ hne]
          simp [dictGet]
    · refine ⟨?_, ?_, rfl, by simp [hz]⟩
      · simp [nodesWithIp, preorder, setChild, PTree.ipOf, hbeq]
      · intro n hn
        simp [nodesWithIp, preorder, setChild, PTree.ipOf, hbeq] at hn
        subst hn
        refine ⟨?_, fun hne => ?_⟩
        · simp [PTree.valueOf, dictGet_dictSet_self]
        · simp only [PTree.valueOf]
          rw [dictGet_dictSet_of_ne _ _ _ _ hne]
          simp [dictGet]

/-- C8 amended witness: the theorem applied to `192.168.0.0` with prefix
lengths 16 and 24. -/
theorem colocated_inserts_fold_into_one_node_witness :
    (nodesWithIp (trieTwice Nat 3232235520 16 24 1 3).root 3232235520).length = 1
    ∧ (trieOnce Nat 3232235520 16 1).size = (if (3232235520 : Nat) = 0 then 0 else 1) :=
  ⟨(colocated_inserts_fold_into_one_node Nat 3232235520 16 24 1 3 (by norm_num)).1,
   (colocated_inserts_fold_into_one_node Nat 3232235520 16 24 1 3 (by norm_num)).2.2.2⟩

end CidrTrie
